import Mathlib

/-!
Shallow embedding of the fq EDID decoder
(`format/edid/edid.go`, `format/edid/edid_ext_cea861.go`, and the DisplayID
extension file) together with theorems settling the frozen claims.

Conventions used throughout:
* a buffer is a `List Nat` of bytes; `byteAt` reads a byte (values are
  reduced mod 256, the byte type of the source);
* bit positions are absolute bit offsets into the containing 128-byte
  record window, exactly as `d.Pos()` reports them in the source;
* Go `uint8`/`uint64` arithmetic is modelled on `Nat` with explicit
  `% 256` / `% 2^64`;
* fatal decode errors (failed asserts, out-of-frame reads, negative
  lengths) are modelled with `Except Unit`.
-/

namespace EDID

/-- Width of one record window: 128 bytes = 1024 bits. -/
def recordBits : Nat := 1024

/-- Read byte `i` of a buffer (the Go code indexes `[]byte`; values are
bytes, so we reduce mod 256). -/
def byteAt (w : List Nat) (i : Nat) : Nat := w.getD i 0 % 256

/-- `bytes[k .. k+n)` of a buffer, as `d.BytesRange` / sub-window slicing. -/
def slice (w : List Nat) (k n : Nat) : List Nat := (w.drop k).take n

/-- High nibble of a byte: the first `d.U4()` of that byte (bits are read
most-significant first). -/
def hiNib (b : Nat) : Nat := b / 16 % 16

/-- Low nibble of a byte: the second `d.U4()` of that byte. -/
def loNib (b : Nat) : Nat := b % 16

/-- The `k`-th 2-bit group of a byte, `k = 0` being the most significant:
the successive `d.U2()` reads of one byte. -/
def twoBits (b : Nat) : Nat → Nat
  | 0 => b / 64 % 4
  | 1 => b / 16 % 4
  | 2 => b / 4 % 4
  | _ => b % 4

/-- `CalcSum` from `edid.go`: sum the bytes into a `uint8` accumulator
(wrapping addition mod 256). -/
def CalcSum (bytes : List Nat) : Nat :=
  bytes.foldl (fun checksum b => (checksum + b) % 256) 0

/-- The checksum value the decoder validates against: `uint64(0 - sum)`
with `sum : uint8`, i.e. `(256 - CalcSum ...) % 256`. -/
def checksumExpected (record : List Nat) : Nat :=
  (256 - CalcSum (slice record 0 127)) % 256

/-- Whether the trailing checksum byte of one 128-byte record validates:
`d.FieldU8("checksum", d.UintValidate(uint64(0-sum)))` compares the byte
at offset 127 against `checksumExpected`. -/
def checksumValid (record : List Nat) : Bool :=
  byteAt record 127 == checksumExpected record

theorem calcSum_foldl (l : List Nat) (c : Nat) :
    l.foldl (fun checksum b => (checksum + b) % 256) (c % 256) = (c + l.sum) % 256 := by
  induction l generalizing c with
  | nil => simp
  | cons b t ih =>
    simp only [List.foldl_cons, List.sum_cons]
    have h1 : (c % 256 + b) % 256 = (c + b) % 256 := by omega
    rw [h1, ih]
    omega

theorem CalcSum_eq_sum_mod (l : List Nat) : CalcSum l = l.sum % 256 := by
  have := calcSum_foldl l 0
  simpa [CalcSum] using this

theorem CalcSum_lt (l : List Nat) : CalcSum l < 256 := by
  rw [CalcSum_eq_sum_mod]; omega

/-! ## Fields

A decoded field: name, bit range `[firstBit, firstBit + nBits)` and the raw
unsigned value, plus the validity flag set by `d.UintValidate` (true unless a
validation failed).  This mirrors the `(name, firstBit, nBits, value)`
quadruple handed to `FieldValueUintAddr` / `d.FieldRangeFn` in the source. -/

structure Field where
  name : String
  firstBit : Nat
  nBits : Nat
  value : Nat
  valid : Bool := true
deriving Repr, DecidableEq

/-- Bit range of a field. -/
def Field.range (f : Field) : Nat × Nat := (f.firstBit, f.nBits)

/-- The ranges of a field list, in emission order. -/
def rangesOf (fs : List Field) : List (Nat × Nat) := fs.map Field.range

/-- 2^64, the modulus of Go `uint64` arithmetic. -/
def W64 : Nat := 18446744073709551616

/-- Go `uint64` subtraction `a - b` (wrapping). -/
def usub64 (a b : Nat) : Nat := (a % W64 + (W64 - b % W64)) % W64

/-! ## Detailed timing descriptor (`DetailedTimingDescriptor`, edid.go)

The 18-byte (144-bit) detailed-timing layout.  `b` is the descriptor slot's
own 18 bytes; bit positions are relative to the slot start, exactly the
`d.Pos()` deltas of the source (`pixel_clock` at 0, the final packed byte at
136).  The source reads the split low/high chunks with `d.U8/U4/U2` and
re-emits logical fields over the combined range with `FieldValueUintAddr`;
the back-porch values are `uint64` subtractions of reassembled operands. -/

def DetailedTimingDescriptor (b : List Nat) : List Field :=
  let pixelClock := byteAt b 0 + byteAt b 1 * 256
  let hav0 := byteAt b 2
  let hblank0 := byteAt b 3
  let hav1 := hiNib (byteAt b 4)
  let hblank1 := loNib (byteAt b 4)
  let hblank := hblank0 + hblank1 * 256
  let vav0 := byteAt b 5
  let vblank0 := byteAt b 6
  let vav1 := hiNib (byteAt b 7)
  let vblank1 := loNib (byteAt b 7)
  let vblank := vblank0 + vblank1 * 256
  let hfp0 := byteAt b 8
  let hspw0 := byteAt b 9
  let vfp0 := hiNib (byteAt b 10)
  let vspw0 := loNib (byteAt b 10)
  let hfp1 := twoBits (byteAt b 11) 0
  let hspw1 := twoBits (byteAt b 11) 1
  let vfp1 := twoBits (byteAt b 11) 2
  let vspw1 := twoBits (byteAt b 11) 3
  let hfp := hfp0 + hfp1 * 256
  let hspw := hspw0 + hspw1 * 256
  let vfp := vfp0 + vfp1 * 256
  let vspw := vspw0 + vspw1 * 256
  let havis0 := byteAt b 12
  let vavis0 := byteAt b 13
  let havis1 := hiNib (byteAt b 14)
  let vavis1 := loNib (byteAt b 14)
  let packed := byteAt b 17
  let sync := packed / 2 % 16
  let firstTwo := sync &&& 0xc
  let third := sync &&& 0x2
  let fourth := sync &&& 0x1
  [ { name := "pixel_clock", firstBit := 0, nBits := 16, value := pixelClock },
    { name := "horizontal_addressable_video", firstBit := 16, nBits := 24,
      value := hav0 + hav1 * 256 },
    { name := "horizontal_blanking", firstBit := 16, nBits := 24, value := hblank },
    { name := "vertical_addressable_video", firstBit := 40, nBits := 24,
      value := vav0 + vav1 * 256 },
    { name := "vertical_blanking", firstBit := 40, nBits := 24, value := vblank },
    { name := "horizontal_front_porch", firstBit := 64, nBits := 32, value := hfp },
    { name := "horizontal_sync_pulse_width", firstBit := 64, nBits := 32, value := hspw },
    { name := "horizontal_back_porch", firstBit := 64, nBits := 32,
      value := usub64 (usub64 hblank hfp) hspw },
    { name := "vertical_front_porch", firstBit := 64, nBits := 32, value := vfp },
    { name := "vertical_sync_pulse_width", firstBit := 64, nBits := 32, value := vspw },
    { name := "vertical_back_porch", firstBit := 64, nBits := 32,
      value := usub64 (usub64 vblank vfp) vspw },
    { name := "horizontal_addressable_video_image_size", firstBit := 96, nBits := 24,
      value := havis0 + havis1 * 256 },
    { name := "vertical_addressable_video_image_size", firstBit := 96, nBits := 24,
      value := vavis0 + vavis1 * 256 },
    { name := "horizontal_border_left_right", firstBit := 120, nBits := 8,
      value := byteAt b 15 },
    { name := "vertical_border_left_right", firstBit := 128, nBits := 8,
      value := byteAt b 16 },
    { name := "signal_interface_type", firstBit := 136, nBits := 1, value := packed / 128 },
    { name := "stereo_viewing_support", firstBit := 137, nBits := 7, value := packed % 128 },
    { name := "sync_signal", firstBit := 139, nBits := 4, value := firstTwo },
    { name := if firstTwo = 0xc then "vsync_polarity" else "with_serrations",
      firstBit := 139, nBits := 4, value := third },
    { name := if firstTwo = 0xc ∨ firstTwo = 0x8 then "hsync_polarity" else "sync_on",
      firstBit := 139, nBits := 4, value := fourth } ]

/-- Look up the value of the first field with the given name. -/
def fieldValue (fs : List Field) (name : String) : Option Nat :=
  (fs.find? (fun f => f.name == name)).map Field.value

/-! ## Established timings (`mapTimings` / `decodeEstablishedTimings`, edid.go) -/

/-- `mapTimings`: for each set bit `i` of `flags` emit a "timing" field whose
raw value is the bit index, at the flag byte's own range `[firstBit, +8)`. -/
def mapTimings (flags : Nat) (firstBit : Nat) : List Field :=
  (List.range 8).filterMap fun i =>
    if flags >>> i &&& 0x1 = 1 then
      some { name := "timing", firstBit := firstBit, nBits := 8, value := i }
    else none

/-- `decodeEstablishedTimings`: bytes 35-37 of the base record (bits 280,
288, 296), each expanded through `mapTimings`. -/
def decodeEstablishedTimings (buf : List Nat) : List Field :=
  mapTimings (byteAt buf 35) 280 ++ mapTimings (byteAt buf 36) 288 ++
    mapTimings (byteAt buf 37) 296

/-! ## Chromaticity coordinates (`decodeChromaticityCoordinates`, edid.go)

Eight coordinates, each split as 2 low bits (bytes 25-26) plus 8 high bits
(bytes 27-34); every logical field is re-emitted over the combined range
`[200, 280)` with float value `(low + high*4) / 1024`. -/

structure FltField where
  name : String
  firstBit : Nat
  nBits : Nat
  value : ℚ
deriving Repr, DecidableEq

def FltField.range (f : FltField) : Nat × Nat := (f.firstBit, f.nBits)

def decodeChromaticityCoordinates (buf : List Nat) : List FltField :=
  let redX0 := twoBits (byteAt buf 25) 0
  let redY0 := twoBits (byteAt buf 25) 1
  let greenX0 := twoBits (byteAt buf 25) 2
  let greenY0 := twoBits (byteAt buf 25) 3
  let blueX0 := twoBits (byteAt buf 26) 0
  let blueY0 := twoBits (byteAt buf 26) 1
  let whiteX0 := twoBits (byteAt buf 26) 2
  let whiteY0 := twoBits (byteAt buf 26) 3
  let coord : Nat → Nat → ℚ := fun lo hi => ((lo : ℚ) + (hi : ℚ) * 4) / 1024
  [ { name := "red_x", firstBit := 200, nBits := 80, value := coord redX0 (byteAt buf 27) },
    { name := "red_y", firstBit := 200, nBits := 80, value := coord redY0 (byteAt buf 28) },
    { name := "green_x", firstBit := 200, nBits := 80, value := coord greenX0 (byteAt buf 29) },
    { name := "green_y", firstBit := 200, nBits := 80, value := coord greenY0 (byteAt buf 30) },
    { name := "blue_x", firstBit := 200, nBits := 80, value := coord blueX0 (byteAt buf 31) },
    { name := "blue_y", firstBit := 200, nBits := 80, value := coord blueY0 (byteAt buf 32) },
    { name := "white_x", firstBit := 200, nBits := 80, value := coord whiteX0 (byteAt buf 33) },
    { name := "white_y", firstBit := 200, nBits := 80, value := coord whiteY0 (byteAt buf 34) } ]

/-! ## Standard timings (`decodeStandardTimings`, edid.go)

The source reads the sixteen slot bytes as two `d.U64()` values.  The
decoder runs with `d.Endian = decode.LittleEndian` (set at the top of
`decodeEDID`), so byte `j` of each 8-byte group contributes
`byte * 256^j`.  For `i = 3 .. 0` (slot index `blockIdx = 3 - i`) it
extracts `first = block >> ((i*2+1)*8) & 0xf` and
`second = block >> (i*2*8) & 0xf` — note the 4-bit masks — skips the slot
when `first == 1 && second == 1`, and otherwise emits the three fields of
one "timing" struct at the slot's own bit addresses. -/

structure StdTiming where
  firstBit : Nat
  horizRaw : Nat
  horizSym : Nat
  aspectRaw : Nat
  aspectSym : String
  refreshRaw : Nat
  refreshSym : Nat
deriving Repr, DecidableEq

/-- `UintMapSymStr{0:"16:10",1:"4:3",2:"5:4",3:"16:9"}` of the 2-bit
aspect-ratio value. -/
def stdAspectSym (a : Nat) : String :=
  if a = 0 then "16:10" else if a = 1 then "4:3" else if a = 2 then "5:4"
  else "16:9"

/-- One `timingBlock` pass of `decodeStandardTimings`: `block` is a `d.U64()`
little-endian read of 8 slot bytes starting at bit `firstBit`. -/
def timingBlock (block : Nat) (firstBit : Nat) : List StdTiming :=
  ([3, 2, 1, 0] : List Nat).filterMap fun i =>
    let blockIdx := 3 - i
    let fStart := firstBit + blockIdx * 16
    let first := block >>> ((i * 2 + 1) * 8) &&& 0xf
    let second := block >>> (i * 2 * 8) &&& 0xf
    if first ≠ 1 ∨ second ≠ 1 then
      some { firstBit := fStart
             horizRaw := first, horizSym := (first + 31) * 8
             aspectRaw := second >>> 6 &&& 0x3
             aspectSym := stdAspectSym (second >>> 6 &&& 0x3)
             refreshRaw := second &&& 0x3f
             refreshSym := (second &&& 0x3f) + 60 }
    else none

/-- Little-endian `d.U64()` of the 8 bytes starting at byte `k`. -/
def u64le (w : List Nat) (k : Nat) : Nat :=
  byteAt w k + byteAt w (k + 1) * 256 + byteAt w (k + 2) * 65536 +
    byteAt w (k + 3) * 16777216 + byteAt w (k + 4) * 4294967296 +
    byteAt w (k + 5) * 1099511627776 + byteAt w (k + 6) * 281474976710656 +
    byteAt w (k + 7) * 72057594037927936

/-- `decodeStandardTimings` over the 16-byte window (bytes 38-53 of the base
record; `comboStart = 304`). -/
def decodeStandardTimings (win : List Nat) : List StdTiming :=
  timingBlock (u64le win 0) 304 ++ timingBlock (u64le win 8) (304 + 64)

/-- Modelled from the spec (section 4.3 item 10 and section 8): the standard
timing table the claims describe — slot `k` is the byte pair
`(win[2k], win[2k+1])`; a pair `(1,1)` is skipped; otherwise byte1 maps to
`(raw+31)*8` horizontal pixels, byte2's top two bits select the aspect
enum, and its bottom six bits give `refresh = raw + 60`. -/
def decodeStandardTimingsSpec (win : List Nat) : List StdTiming :=
  ([0, 1, 2, 3, 4, 5, 6, 7] : List Nat).filterMap fun k =>
    let b1 := byteAt win (2 * k)
    let b2 := byteAt win (2 * k + 1)
    if b1 ≠ 1 ∨ b2 ≠ 1 then
      some { firstBit := 304 + k * 16
             horizRaw := b1, horizSym := (b1 + 31) * 8
             aspectRaw := b2 >>> 6 &&& 0x3
             aspectSym := stdAspectSym (b2 >>> 6 &&& 0x3)
             refreshRaw := b2 &&& 0x3f
             refreshSym := (b2 &&& 0x3f) + 60 }
    else none

/-- What the source actually computes, written slot by slot: for local slot
`k` of the half starting at byte `base`, the consulted values are the LOW
NIBBLES of the mirrored bytes `base+7-2k` and `base+6-2k` (a consequence of
the little-endian `U64` read combined with the `& 0xf` masks), the skip test
compares those nibbles with `(1,1)`, the aspect bits are always 0 and the
refresh raw value is the second nibble. -/
def timingBlockAmended (w : List Nat) (base firstBit : Nat) : List StdTiming :=
  ([0, 1, 2, 3] : List Nat).filterMap fun k =>
    let first := loNib (byteAt w (base + 7 - 2 * k))
    let second := loNib (byteAt w (base + 6 - 2 * k))
    if first ≠ 1 ∨ second ≠ 1 then
      some { firstBit := firstBit + k * 16
             horizRaw := first, horizSym := (first + 31) * 8
             aspectRaw := 0, aspectSym := "16:10"
             refreshRaw := second, refreshSym := second + 60 }
    else none

def decodeStandardTimingsAmended (win : List Nat) : List StdTiming :=
  timingBlockAmended win 0 304 ++ timingBlockAmended win 8 (304 + 64)

theorem byteAt_lt (w : List Nat) (i : Nat) : byteAt w i < 256 :=
  Nat.mod_lt _ (by norm_num)

theorem loNib_lt (b : Nat) : loNib b < 16 :=
  Nat.mod_lt _ (by norm_num)

theorem u64le_nib (w : List Nat) (k m : Nat) (hm : m < 8) :
    u64le w k >>> (m * 8) &&& 0xf = loNib (byteAt w (k + m)) := by
  have hand := Nat.and_pow_two_sub_one_eq_mod (u64le w k >>> (m * 8)) 4
  have hshift := Nat.shiftRight_eq_div_pow (u64le w k) (m * 8)
  have h0 := byteAt_lt w k
  have h1 := byteAt_lt w (k + 1)
  have h2 := byteAt_lt w (k + 2)
  have h3 := byteAt_lt w (k + 3)
  have h4 := byteAt_lt w (k + 4)
  have h5 := byteAt_lt w (k + 5)
  have h6 := byteAt_lt w (k + 6)
  have h7 := byteAt_lt w (k + 7)
  unfold u64le at *
  unfold loNib
  norm_num at hand
  rw [hand, hshift]
  interval_cases m <;> norm_num <;> omega

theorem nib_shift6 (x : Nat) : (x % 16) >>> 6 &&& 0x3 = 0 := by
  have h := Nat.shiftRight_eq_div_pow (x % 16) 6
  norm_num at h
  rw [h, Nat.div_eq_of_lt (by omega)]
  rfl

theorem nib_and3f (x : Nat) : x % 16 &&& 0x3f = x % 16 := by
  have := Nat.and_pow_two_sub_one_eq_mod (x % 16) 6
  norm_num at this
  omega

theorem timingBlock_eq_amended (w : List Nat) (base fb : Nat) :
    timingBlock (u64le w base) fb = timingBlockAmended w base fb := by
  have n7 := u64le_nib w base 7 (by omega)
  have n6 := u64le_nib w base 6 (by omega)
  have n5 := u64le_nib w base 5 (by omega)
  have n4 := u64le_nib w base 4 (by omega)
  have n3 := u64le_nib w base 3 (by omega)
  have n2 := u64le_nib w base 2 (by omega)
  have n1 := u64le_nib w base 1 (by omega)
  have n0 := u64le_nib w base 0 (by omega)
  norm_num at n7 n6 n5 n4 n3 n2 n1 n0
  have e75 : base + 7 - 2 = base + 5 := by omega
  have e73 : base + 7 - 4 = base + 3 := by omega
  have e71 : base + 7 - 6 = base + 1 := by omega
  have e64 : base + 6 - 2 = base + 4 := by omega
  have e62 : base + 6 - 4 = base + 2 := by omega
  have e60 : base + 6 - 6 = base := by omega
  simp only [timingBlock, timingBlockAmended, List.filterMap]
  norm_num [n7, n6, n5, n4, n3, n2, n1, n0, loNib, nib_shift6, nib_and3f, stdAspectSym,
    e75, e73, e71, e64, e62, e60]

/-- C2 (amended): what the standard-timing decoder actually emits, for
every input window: for local slot `k` of each 8-byte half it consults the
LOW NIBBLES of the mirrored bytes `7-2k` and `6-2k` of that half (the
little-endian `U64` read combined with the `& 0xf` masks), skips emission
when that nibble pair is `(1, 1)`, and otherwise emits at slot `k`'s bit
address a timing whose horizontal raw value is the first nibble (symbol
`(nibble+31)*8`), whose aspect bits are always 0, and whose refresh raw
value is the second nibble (symbol `nibble + 60`).  In particular a slot
holding `(0x01, 0x01)` is NOT skipped based on its own bytes, and a slot
holding `(0x61, 0x3F)` does not produce `(0x61+31)*8` anywhere. -/
theorem C2_standard_timings_amended (win : List Nat) :
    decodeStandardTimings win = decodeStandardTimingsAmended win := by
  unfold decodeStandardTimings decodeStandardTimingsAmended
  rw [timingBlock_eq_amended, timingBlock_eq_amended]

/-! ## Aspect ratio (`aspectRatio` and friends, edid.go)

The source computes over `float64`; the model uses exact rationals.  Every
comparison the claims exercise is far from the float64 rounding error
(margins of at least 1/1440 against a tolerance of 1/100), so the rational
model and the float computation agree on them.  `uint64(x)` conversion of
the non-negative float is modelled by `Int.toNat ∘ Int.floor`. -/

/-- The source's Euclid loop: iterate `(a, b) -> (b, a % b)` until `b = 0`
and return `a`.  Written via `Nat.gcd` (arguments swapped) so the kernel
can evaluate it; `greatest_common_divisor_eq` below shows it satisfies the
loop's recurrence. -/
def greatest_common_divisor (a b : Nat) : Nat := Nat.gcd b a

theorem greatest_common_divisor_eq (a b : Nat) :
    greatest_common_divisor a b =
      if b = 0 then a else greatest_common_divisor b (a % b) := by
  unfold greatest_common_divisor
  cases b with
  | zero => simp
  | succ k => simp [Nat.gcd_succ]

/-- The `aspectRatioEdgeCase` map. -/
def aspectRatioEdgeCase (s : String) : Option String :=
  if s = "8:5" then some "16:10"
  else if s = "5:8" then some "10:16"
  else if s = "7:3" then some "21:9"
  else if s = "3:7" then some "9:21"
  else none

/-- `fmt.Sprintf("%d:%d", w, h)`. -/
def ratioString (w h : Nat) : String := toString w ++ ":" ++ toString h

def aspectRatioDenominator (width height : Nat) : String :=
  let gcd := greatest_common_divisor width height
  let nWidth := width / gcd
  let nHeight := height / gcd
  let t := ratioString nWidth nHeight
  match aspectRatioEdgeCase t with
  | some edge => edge
  | none => t

/-- `uint64(aspect*float64(n) + 0.5)` for the (always non-negative) values
reaching it. -/
def roundedNum (aspect : ℚ) (n : Nat) : Nat :=
  (⌊aspect * n + 1 / 2⌋).toNat

/-- The acceptance test of one search step:
`math.Abs(aspect-float64(m)/float64(n)) < 0.01` with `m = roundedNum`. -/
def cfAccept (aspect : ℚ) (n : Nat) : Prop :=
  |aspect - (roundedNum aspect n : ℚ) / (n : ℚ)| < 1 / 100

instance (aspect : ℚ) (n : Nat) : Decidable (cfAccept aspect n) := by
  unfold cfAccept; infer_instance

/-- The `for n := 1; n <= 20; n++` search, with the denominator still to
try first and the number of tries left; `none` models the
`fmt.Sprintf("%2f", aspect)` fall-through (no denominator matched). -/
def aspectRatioFrom (aspect : ℚ) (n : Nat) : Nat → Option String
  | 0 => none
  | fuel + 1 =>
    if cfAccept aspect n then some (aspectRatioDenominator (roundedNum aspect n) n)
    else aspectRatioFrom aspect (n + 1) fuel

def aspectRatio (aspect : ℚ) : Option String := aspectRatioFrom aspect 1 20

/-- The aspect-ratio portion of `decodeBasicDisplayParameters`: the value of
the emitted "aspect_ratio" string field as a function of the two
screen-size bytes (`none` = the float-formatted fall-through string). -/
def aspectRatioField (hScreenSize vScreenSize : Nat) : Option String :=
  if hScreenSize = 0 ∧ vScreenSize = 0 then some "undefined"
  else if hScreenSize = 0 then
    aspectRatio (100 / ((vScreenSize : ℚ) + 99))
  else if vScreenSize = 0 then
    aspectRatio (((hScreenSize : ℚ) + 99) / 100)
  else
    aspectRatio ((hScreenSize : ℚ) / (vScreenSize : ℚ))

/-! ## Mapper pipeline (`FieldValueUintAddr`, edid.go)

`scalar.Uint` carries the raw value (`Actual`) plus the annotations the
claims talk about (`Sym`, `Description`); a `scalar.UintMapper` returns a
possibly-updated scalar together with an error flag.  `FieldValueUintAddr`
folds the mappers left to right and, at the first error, emits the scalar
exactly as that mapper returned it. -/

structure UintScalar where
  actual : Nat
  sym : Option Nat := none
  description : Option String := none
deriving Repr, DecidableEq

/-- `scalar.UintMapper.MapUint`: new scalar plus error flag. -/
def UintMapperFn : Type := UintScalar → UintScalar × Bool

/-- The mapper loop of `FieldValueUintAddr`: `s, err = sm.MapUint(s)`; on
`err != nil` the current scalar is returned at once, otherwise the fold
continues. -/
def applyUintMappers : UintScalar → List UintMapperFn → UintScalar
  | s, [] => s
  | s, sm :: sms =>
    let r := sm s
    if r.2 then r.1 else applyUintMappers r.1 sms

/-- `FieldValueUintAddr` itself: builds the initial scalar
`scalar.Uint{Actual: a}` and emits one field over the explicit range. -/
def FieldValueUintAddr (name : String) (a : Nat) (firstBit nBits : Nat)
    (sms : List UintMapperFn) : String × Nat × Nat × UintScalar :=
  (name, firstBit, nBits, applyUintMappers { actual := a } sms)

/-- `descUintMapper`: sets the description, never fails. -/
def descUintMapper (d : String) : UintMapperFn :=
  fun s => ({ s with description := some d }, false)

/-- `addUintMapper`: symbol `actual + m`, never fails. -/
def addUintMapper (m : Nat) : UintMapperFn :=
  fun s => ({ s with sym := some ((s.actual + m) % W64) }, false)

/-- `scalar.UintActualAdd`: adds to the raw value itself, never fails. -/
def UintActualAdd (m : Nat) : UintMapperFn :=
  fun s => ({ s with actual := (s.actual + m) % W64 }, false)

/-- A table-lookup mapper that fails outside its domain (the kind of mapper
the claim's "value is outside its lookup domain" example describes; the
chain argument of `FieldValueUintAddr` is an arbitrary `scalar.UintMapper`
list, so this is an input, not repository code). -/
def lookupUintMapper (table : Nat → Option Nat) : UintMapperFn :=
  fun s =>
    match table s.actual with
    | some v => ({ s with sym := some v }, false)
    | none => (s, true)

/-! ## Sibling bit-range relations (claim C4) -/

/-- Two ranges `[a.1, a.1+a.2)` and `[b.1, b.1+b.2)` are disjoint. -/
def rangesDisjoint (a b : Nat × Nat) : Prop :=
  a.1 + a.2 ≤ b.1 ∨ b.1 + b.2 ≤ a.1

/-- One range contains the other (equality included). -/
def rangesNested (a b : Nat × Nat) : Prop :=
  (a.1 ≤ b.1 ∧ b.1 + b.2 ≤ a.1 + a.2) ∨ (b.1 ≤ a.1 ∧ a.1 + a.2 ≤ b.1 + b.2)

/-- The relation the claim asserts between an earlier and a later sibling
field: start bits non-decreasing, and the ranges never overlap except when
they are the same combined (reassembled-split) range. -/
def claimSiblingRel (a b : Nat × Nat) : Prop :=
  a.1 ≤ b.1 ∧ (rangesDisjoint a b ∨ a = b)

/-- The amended relation: a later range may also be contained in (or
contain) an earlier one, as the sync sub-fields of the final packed byte
are contained in the 7-bit stereo field. -/
def amendedSiblingRel (a b : Nat × Nat) : Prop :=
  a.1 ≤ b.1 ∧ (rangesDisjoint a b ∨ rangesNested a b)

instance (a b : Nat × Nat) : Decidable (rangesDisjoint a b) := by
  unfold rangesDisjoint; infer_instance

instance (a b : Nat × Nat) : Decidable (rangesNested a b) := by
  unfold rangesNested; infer_instance

instance : DecidableRel claimSiblingRel := by
  unfold DecidableRel claimSiblingRel; infer_instance

instance : DecidableRel amendedSiblingRel := by
  unfold DecidableRel amendedSiblingRel; infer_instance

/-! ## Descriptor slot dispatch (`DetailedDescriptor`, edid.go)

An 18-byte descriptor slot: peek 16 bits; zero selects the display
descriptor variant (3 asserted zero bytes, a tag byte, tag-driven payload),
anything else the detailed-timing layout.  Positions are relative to the
slot; the caller shifts them to the containing record.  Payload fields that
hold opaque bytes or text (raw captures, the 13-char string) are modelled
with value 0: no claim depends on their contents, only on their name, bit
range and presence.  Failed asserts (`AssertBitBuf`) are fatal, hence
`.error`.  The caller wraps the slot in `FramedFn(18*8)`, so a successful
slot always consumes exactly 18 bytes. -/

def shiftField (p : Nat) (f : Field) : Field := { f with firstBit := f.firstBit + p }

/-- The fixed `0x0a 0x20 ×6` padding the range-limits descriptor asserts
(the `vtFlags` condition in the source is a tautology, so the assert always
runs). -/
def rangeLimitsPadding : List Nat := [0x0a, 0x20, 0x20, 0x20, 0x20, 0x20, 0x20]

def DetailedDescriptorE (s : List Nat) : Except Unit (List Field) :=
  if byteAt s 0 ≠ 0 ∨ byteAt s 1 ≠ 0 then
    -- non-zero peeked 16 bits: detailed timing descriptor
    .ok (DetailedTimingDescriptor s)
  else if byteAt s 2 ≠ 0 then
    -- d.AssertBitBuf([]byte{0,0,0}) fails
    .error ()
  else
    let tag := byteAt s 3
    let maybeFlags := byteAt s 4
    let hdr : List Field :=
      [ { name := "identifer", firstBit := 0, nBits := 24, value := 0 },
        { name := "tag", firstBit := 24, nBits := 8, value := tag },
        { name := "reserved", firstBit := 32, nBits := 8, value := maybeFlags } ]
    if tag = 0xfc ∨ tag = 0xfe ∨ tag = 0xff then
      .ok (hdr ++ [{ name := "value", firstBit := 40, nBits := 104, value := 0 }])
    else if tag = 0xfd then
      -- monitor range limits
      if slice s 11 7 = rangeLimitsPadding then
        .ok (hdr ++
          [ { name := "min_vertical_refresh", firstBit := 40, nBits := 8,
              value := (byteAt s 5 + if maybeFlags &&& 0x3 = 0x3 then 255 else 0) % W64 },
            { name := "max_vertical_refresh", firstBit := 48, nBits := 8,
              value := (byteAt s 6 + if maybeFlags &&& 0x2 = 0x2 then 255 else 0) % W64 },
            { name := "min_horizontal_refresh", firstBit := 56, nBits := 8,
              value := (byteAt s 7 + if maybeFlags >>> 2 &&& 0x3 = 0x3 then 255 else 0) % W64 },
            { name := "max_horizontal_refresh", firstBit := 64, nBits := 8,
              value := (byteAt s 8 + if maybeFlags >>> 2 &&& 0x2 = 0x2 then 255 else 0) % W64 },
            { name := "max_pixel_clock", firstBit := 72, nBits := 8, value := byteAt s 9 },
            { name := "video_timing_support_flags", firstBit := 80, nBits := 8,
              value := byteAt s 10 },
            { name := "padding", firstBit := 88, nBits := 56, value := 0 } ])
      else
        -- d.AssertBitBuf on the fixed padding fails
        .error ()
    else if tag = 0xfa then
      .ok (hdr ++ [{ name := "standard_timing_identifiers", firstBit := 40, nBits := 104,
                     value := 0 }])
    else if tag = 0xfb then
      .ok (hdr ++ [{ name := "color_point", firstBit := 40, nBits := 104, value := 0 }])
    else
      .ok (hdr ++ [{ name := "manufacturer_tag", firstBit := 40, nBits := 104, value := 0 }])

/-! ## CEA-861 extension (`decodeCEAExtension`, edid_ext_cea861.go)

`w` is one 128-byte extension window (frame `[0, 1024)` bits).  The decoder
errors out (and the dispatcher then falls back to an opaque block) when the
leading tag assert fails, when a computed length is negative
(`FieldRawLen` with a negative count), when a read would cross the 128-byte
frame, or when an embedded descriptor slot decodes fatally.  On success the
returned `Nat` is the exact number of consumed bits. -/

def decodeCEAExtension (w : List Nat) : Except Unit (List Field × Nat) :=
  if byteAt w 0 ≠ 0x02 then .error () else    -- d.UintAssert(0x02)
  let offset := byteAt w 2
  if offset < 4 then .error () else           -- padding length (offset-4)*8 < 0
  if 128 < offset then .error () else         -- padding read crosses the frame
  if 110 < offset then .error () else         -- first 18-byte slot crosses the frame
  match DetailedDescriptorE (slice w offset 18) with
  | .error e => .error e
  | .ok f1 =>
  if 92 < offset then .error () else          -- second 18-byte slot crosses the frame
  match DetailedDescriptorE (slice w (offset + 18) 18) with
  | .error e => .error e
  | .ok f2 =>
  if 91 < offset then .error () else          -- data length (123-32-offset)*8 < 0
  .ok (
    [ { name := "tag", firstBit := 0, nBits := 8, value := byteAt w 0 },
      { name := "revision", firstBit := 8, nBits := 8, value := byteAt w 1 },
      { name := "offset", firstBit := 16, nBits := 8, value := offset },
      { name := "reserved", firstBit := 24, nBits := 8, value := byteAt w 3 },
      { name := "padding", firstBit := 32, nBits := (offset - 4) * 8, value := 0 } ] ++
    (f1.map (shiftField (offset * 8))) ++
    (f2.map (shiftField ((offset + 18) * 8))) ++
    [ { name := "data", firstBit := (offset + 36) * 8, nBits := (91 - offset) * 8,
        value := 0 },
      { name := "checksum", firstBit := 1016, nBits := 8, value := byteAt w 127,
        valid := checksumValid w } ],
    1024)

/-! ## DisplayID extension (`decodeDisplayID*`, the unnamed source file)

The extension window is framed at `[8, 1016)` bits for the inner
`decodeDisplayID` (126 bytes after the external tag byte); the data-block
loop peeks a tag byte and stops early on a zero tag that is not the first
block.  Blocks are modelled by their tag and bit range — the claims about
this list concern block boundaries, tags and loop termination, not block
innards, whose reads only matter here through the bytes they consume. -/

structure DataBlock where
  tag : Nat
  firstBit : Nat
  nBits : Nat
deriving Repr, DecidableEq

/-- One `data_block` struct: tag byte, then either the Type I Timing
payload (`0x03`: revision, payload byte count, `payload/20` fixed 20-byte
timing groups) or the generic header/revision/length/payload shape.
Returns the block and the new bit position; `.error` when a read crosses
the 1016-bit frame end. -/
def decodeDataBlockE (w : List Nat) (pos : Nat) : Except Unit (DataBlock × Nat) :=
  let tag := byteAt w (pos / 8)
  if tag = 0x03 then
    if 1016 < pos + 24 then .error () else
    let pBytes := byteAt w (pos / 8 + 2)
    let numberOfTimings := pBytes / 20
    let size := 24 + numberOfTimings * 160
    if 1016 < pos + size then .error () else
    .ok ({ tag := tag, firstBit := pos, nBits := size }, pos + size)
  else
    if 1016 < pos + 24 then .error () else
    let pBytes := byteAt w (pos / 8 + 2)
    let size := 24 + pBytes * 8
    if 1016 < pos + size then .error () else
    .ok ({ tag := tag, firstBit := pos, nBits := size }, pos + size)

/-- The `for d.Pos() < limit` loop of `decodeDisplayID`.  `dataStart` is the
bit position where the block array begins; a peeked zero tag is decoded
as an ordinary block there and terminates the loop (without being
consumed) anywhere later.  The Go loop needs no fuel — every block consumes
at least 3 bytes — so any fuel at least `limit` iterations makes the model
agree with it. -/
def dataBlocksLoop (w : List Nat) (limit dataStart : Nat) :
    Nat → Nat → Except Unit (List DataBlock × Nat)
  | 0, pos => .ok ([], pos)
  | fuel + 1, pos =>
    if limit ≤ pos then .ok ([], pos) else
    if 1016 < pos + 8 then .error () else      -- d.PeekUintBits(8) crosses the frame
    let tag := byteAt w (pos / 8)
    if tag = 0 ∧ pos ≠ dataStart then .ok ([], pos) else
    match decodeDataBlockE w pos with
    | .error e => .error e
    | .ok (blk, pos1) =>
      match dataBlocksLoop w limit dataStart fuel pos1 with
      | .error e => .error e
      | .ok (rest, posF) => .ok (blk :: rest, posF)

/-- `decodeDisplayID` on the whole 128-byte window (positions absolute, the
external tag byte is byte 0, the frame for the inner decode ends at bit
1016). -/
def decodeDisplayID (w : List Nat) : Except Unit (List Field × List DataBlock) :=
  let byteCount := byteAt w 2
  let id := byteAt w 3
  let ext := byteAt w 4
  let limit := (5 + byteCount) * 8
  let hdr : List Field :=
    [ { name := "display_id_version", firstBit := 8, nBits := 4, value := hiNib (byteAt w 1) },
      { name := "display_id_revision", firstBit := 12, nBits := 4, value := loNib (byteAt w 1) },
      { name := "bytes_of_data", firstBit := 16, nBits := 8, value := byteCount },
      { name := "display_product_type_identifier", firstBit := 24, nBits := 8, value := id },
      { name := "extension_count", firstBit := 32, nBits := 8, value := ext } ] ++
    (if id = 0 ∧ ext = 0 then
      [{ name := "is_an_extension", firstBit := 40, nBits := 0, value := 1 }] else [])
  match dataBlocksLoop w limit 40 limit 40 with
  | .error e => .error e
  | .ok (blocks, pos) =>
    if 1008 < pos then .error () else          -- the trailing checksum byte read fails
    let padding : List Field :=
      if pos < 1008 then
        [{ name := "padding", firstBit := pos, nBits := 1008 - pos, value := 0 }]
      else []
    let sum := CalcSum (slice w 1 (4 + byteCount))
    .ok (hdr ++ padding ++
      [{ name := "checksum", firstBit := 1008, nBits := 8, value := byteAt w 126,
         valid := byteAt w 126 == (256 - sum) % 256 }],
      blocks)

/-- `decodeDisplayIDExtension`: external tag assert, the framed inner
decode (`FramedFn(126*8)` forces consumption to the frame), the outer
checksum byte. -/
def decodeDisplayIDExtension (w : List Nat) : Except Unit (List Field × Nat) :=
  if byteAt w 0 ≠ 0x70 then .error () else    -- d.UintAssert(0x70)
  match decodeDisplayID w with
  | .error e => .error e
  | .ok (fs, _) =>
    .ok ([{ name := "tag", firstBit := 0, nBits := 8, value := byteAt w 0 }] ++ fs ++
      [{ name := "checksum", firstBit := 1016, nBits := 8, value := byteAt w 127,
         valid := checksumValid w }],
      1024)

/-! ## Extension dispatch (`decodeEDID`, edid.go lines 647-678)

`d.TryFieldFormat("extension", &edidExtensionGroup, nil)` tries the
registered sub-decoders (`decodeCEAExtension` asserts tag `0x02`,
`decodeDisplayIDExtension` asserts tag `0x70`; the tag asserts are
disjoint, so at most one can get past its first byte) and rolls back on
error; when none succeeds the whole 128-byte window is captured as one
opaque `unknown_extension` raw field.  Each window is wrapped in
`FramedFn(128*8)`, so exactly 128 bytes are consumed in every case. -/

inductive ExtDecoded where
  | decoded (fields : List Field)
  | unknown (fields : List Field)
deriving Repr, DecidableEq

def ExtDecoded.fields : ExtDecoded → List Field
  | .decoded fs => fs
  | .unknown fs => fs

def unknownExtensionField : Field :=
  { name := "unknown_extension", firstBit := 0, nBits := 1024, value := 0 }

def decodeExtension (w : List Nat) : ExtDecoded :=
  match decodeCEAExtension w with
  | .ok (fs, _) => .decoded fs
  | .error _ =>
    match decodeDisplayIDExtension w with
    | .ok (fs, _) => .decoded fs
    | .error _ => .unknown [unknownExtensionField]

/-! ## Base-record tail (`decodeEDID`, edid.go lines 640-678)

The checksum field of the base record and the extension windows that
follow.  The checksum is validated with `d.UintValidate` — a non-fatal
validation recorded on the field — and the extension array is decoded
regardless of its outcome. -/

structure EDIDResult where
  checksum : Field
  extensions : List ExtDecoded
deriving Repr, DecidableEq

def decodeEDIDTail (buf : List Nat) : EDIDResult :=
  let ext := byteAt buf 126
  { checksum := { name := "checksum", firstBit := 1016, nBits := 8,
                  value := byteAt buf 127, valid := checksumValid buf }
    extensions := (List.range ext).map fun i => decodeExtension (slice buf (128 * (i + 1)) 128) }

/-! ## Checksum support lemmas -/

theorem sum_set_of_lt (l : List Nat) (i b : Nat) (h : i < l.length) :
    (l.set i b).sum + l.getD i 0 = l.sum + b := by
  induction l generalizing i with
  | nil => simp at h
  | cons x t ih =>
    cases i with
    | zero => simp [List.set, List.getD]; omega
    | succ j =>
      simp only [List.set, List.sum_cons, List.getD_cons_succ]
      have := ih j (by simpa using h)
      omega

theorem checksumValid_iff_int (record : List Nat) :
    checksumValid record = true ↔
      (byteAt record 127 : ℤ) = (0 - ((slice record 0 127).sum : ℤ)) % 256 := by
  unfold checksumValid checksumExpected
  rw [beq_iff_eq, CalcSum_eq_sum_mod]
  have hb : byteAt record 127 < 256 := byteAt_lt record 127
  constructor
  · intro h
    have : byteAt record 127 = (256 - (slice record 0 127).sum % 256) % 256 := h
    omega
  · intro h
    omega

theorem checksumValid_set_of_ne (record : List Nat) (i b' : Nat)
    (hlen : record.length = 128) (hbytes : ∀ x ∈ record, x < 256)
    (hi : i < 127) (hb' : b' < 256) (hne : b' ≠ record.getD i 0)
    (hv : checksumValid record = true) :
    checksumValid (record.set i b') = false := by
  have hiLen : i < record.length := by omega
  have hOld : record.getD i 0 < 256 := by
    rw [List.getD_eq_getElem record 0 hiLen]
    exact hbytes _ (List.getElem_mem hiLen)
  have hTake : slice (record.set i b') 0 127 = (slice record 0 127).set i b' := by
    unfold slice
    simp [List.set_take]
  have hTakeLen : i < (slice record 0 127).length := by
    unfold slice
    simp [hlen]; omega
  have hTakeGetD : (slice record 0 127).getD i 0 = record.getD i 0 := by
    unfold slice
    simp [List.getD, List.getElem?_take, hi]
  have hSum := sum_set_of_lt (slice record 0 127) i b' hTakeLen
  have hByte127 : byteAt (record.set i b') 127 = byteAt record 127 := by
    have h127 : i ≠ 127 := by omega
    simp [byteAt, List.getD, List.get?_eq_getElem?, List.getElem?_set_ne h127]
  rw [checksumValid_iff_int] at hv
  by_contra hcon
  have hvalid' : checksumValid (record.set i b') = true := by
    cases h : checksumValid (record.set i b') with
    | true => rfl
    | false => exact absurd h hcon
  rw [checksumValid_iff_int, hTake, hByte127] at hvalid'
  rw [hTakeGetD] at hSum
  omega

/-! ## Aspect-ratio support lemmas -/

/-- The search loop returns the FIRST denominator within tolerance: a
`some` result pins down a unique accepted `n` with every smaller candidate
rejected, and the string is the gcd-reduced, edge-substituted rendering for
that `n`. -/
theorem aspectRatioFrom_some (aspect : ℚ) :
    ∀ (fuel n0 : Nat) (s : String), aspectRatioFrom aspect n0 fuel = some s →
      ∃ n, n0 ≤ n ∧ n < n0 + fuel ∧ cfAccept aspect n ∧
        (∀ k, n0 ≤ k → k < n → ¬ cfAccept aspect k) ∧
        s = aspectRatioDenominator (roundedNum aspect n) n := by
  intro fuel
  induction fuel with
  | zero => intro n0 s h; simp [aspectRatioFrom] at h
  | succ f ih =>
    intro n0 s h
    unfold aspectRatioFrom at h
    split_ifs at h with hacc
    · refine ⟨n0, le_refl _, by omega, hacc, fun k hk1 hk2 => absurd hk1 (by omega), ?_⟩
      exact (Option.some_injective _ h).symm
    · obtain ⟨n, h1, h2, h3, h4, h5⟩ := ih (n0 + 1) s h
      refine ⟨n, by omega, by omega, h3, fun k hk1 hk2 => ?_, h5⟩
      by_cases hk : k = n0
      · exact hk ▸ hacc
      · exact h4 k (by omega) hk2

theorem ratioString_ne_undefined (a b : Nat) : ratioString a b ≠ "undefined" := by
  intro h
  have hmem : (':' : Char) ∈ (ratioString a b).data := by
    unfold ratioString
    rw [String.data_append, String.data_append]
    refine List.mem_append.mpr (Or.inl (List.mem_append.mpr (Or.inr ?_)))
    decide
  rw [h] at hmem
  revert hmem
  decide

theorem aspectRatioEdgeCase_ne_undefined (s t : String)
    (h : aspectRatioEdgeCase s = some t) : t ≠ "undefined" := by
  unfold aspectRatioEdgeCase at h
  split_ifs at h <;> simp only [Option.some_inj] at h <;> rw [← h] <;> decide

theorem aspectRatioDenominator_ne_undefined (w h : Nat) :
    aspectRatioDenominator w h ≠ "undefined" := by
  unfold aspectRatioDenominator
  cases hc : aspectRatioEdgeCase (ratioString (w / greatest_common_divisor w h)
      (h / greatest_common_divisor w h)) with
  | none => simpa [hc] using ratioString_ne_undefined _ _
  | some e => simpa [hc] using aspectRatioEdgeCase_ne_undefined _ _ hc

theorem aspectRatio_ne_undefined (aspect : ℚ) :
    aspectRatio aspect ≠ some "undefined" := by
  intro h
  obtain ⟨n, -, -, -, -, h5⟩ := aspectRatioFrom_some aspect 20 1 "undefined" h
  exact aspectRatioDenominator_ne_undefined _ _ h5.symm

/-- Modelled from the spec (section 4.3 item 6, contrast case): the
edge-case substitution applied BEFORE gcd reduction, for comparison with
the post-reduction order the code uses. -/
def aspectRatioDenominatorPre (width height : Nat) : String :=
  match aspectRatioEdgeCase (ratioString width height) with
  | some edge => edge
  | none =>
    let gcd := greatest_common_divisor width height
    ratioString (width / gcd) (height / gcd)

/-! ## Sibling-range support lemmas -/

/-- The bit ranges of a detailed timing descriptor do not depend on the
input bytes (only names and values do). -/
def dtdRangeList : List (Nat × Nat) :=
  [(0, 16), (16, 24), (16, 24), (40, 24), (40, 24), (64, 32), (64, 32), (64, 32),
   (64, 32), (64, 32), (64, 32), (96, 24), (96, 24), (120, 8), (128, 8), (136, 1),
   (137, 7), (139, 4), (139, 4), (139, 4)]

theorem rangesOf_dtd (b : List Nat) :
    rangesOf (DetailedTimingDescriptor b) = dtdRangeList := rfl

theorem rangesOf_mapTimings (flags fb : Nat) :
    ∀ r ∈ rangesOf (mapTimings flags fb), r = (fb, 8) := by
  intro r hr
  simp only [rangesOf, mapTimings, List.mem_map, List.mem_filterMap] at hr
  obtain ⟨f, ⟨i, _, hif⟩, hfr⟩ := hr
  split_ifs at hif
  cases hif
  rw [← hfr]
  rfl

theorem rangesOf_append (a b : List Field) :
    rangesOf (a ++ b) = rangesOf a ++ rangesOf b := List.map_append ..

theorem pairwise_of_const {R : Nat × Nat → Nat × Nat → Prop} (l : List (Nat × Nat))
    (r : Nat × Nat) (hall : ∀ x ∈ l, x = r) (hrr : R r r) : l.Pairwise R := by
  induction l with
  | nil => exact List.Pairwise.nil
  | cons x t ih =>
    have hx := hall x (List.mem_cons_self x t)
    refine List.Pairwise.cons (fun y hy => ?_) (ih fun y hy => hall y (List.mem_cons_of_mem _ hy))
    rw [hx, hall y (List.mem_cons_of_mem _ hy)]
    exact hrr

theorem pairwise_three {R : Nat × Nat → Nat × Nat → Prop} (l1 l2 l3 : List (Nat × Nat))
    (r1 r2 r3 : Nat × Nat)
    (h1 : ∀ x ∈ l1, x = r1) (h2 : ∀ x ∈ l2, x = r2) (h3 : ∀ x ∈ l3, x = r3)
    (hr1 : R r1 r1) (hr2 : R r2 r2) (hr3 : R r3 r3)
    (hc1 : R r1 r2) (hc2 : R r1 r3) (hc3 : R r2 r3) :
    (l1 ++ l2 ++ l3).Pairwise R := by
  refine List.pairwise_append.mpr ⟨List.pairwise_append.mpr ⟨pairwise_of_const l1 r1 h1 hr1,
    pairwise_of_const l2 r2 h2 hr2, fun a ha b hb => ?_⟩,
    pairwise_of_const l3 r3 h3 hr3, fun a ha b hb => ?_⟩
  · rw [h1 a ha, h2 b hb]; exact hc1
  · rw [h3 b hb]
    rcases List.mem_append.mp ha with ha | ha
    · rw [h1 a ha]; exact hc2
    · rw [h2 a ha]; exact hc3

theorem pairwise_established {R : Nat × Nat → Nat × Nat → Prop} (buf : List Nat)
    (h280 : R (280, 8) (280, 8)) (h288 : R (288, 8) (288, 8)) (h296 : R (296, 8) (296, 8))
    (hc1 : R (280, 8) (288, 8)) (hc2 : R (280, 8) (296, 8)) (hc3 : R (288, 8) (296, 8)) :
    (rangesOf (decodeEstablishedTimings buf)).Pairwise R := by
  unfold decodeEstablishedTimings
  rw [rangesOf_append, rangesOf_append]
  exact pairwise_three _ _ _ _ _ _ (rangesOf_mapTimings _ 280) (rangesOf_mapTimings _ 288)
    (rangesOf_mapTimings _ 296) h280 h288 h296 hc1 hc2 hc3

/-! ## Detailed-timing operand reassembly (claims C8 and C10)

The reassembled operands of the derived back-porch subtractions, named
after the source variables.  The horizontal porch/sync operands are
low 8 bits plus high 2 bits shifted left by 8; the vertical ones are low
4 bits plus high 2 bits shifted left by 8; the blanking operands are low
8 bits plus high 4 bits shifted left by 8. -/

def hblankOf (b : List Nat) : Nat := byteAt b 3 + loNib (byteAt b 4) * 256

def vblankOf (b : List Nat) : Nat := byteAt b 6 + loNib (byteAt b 7) * 256

def hfpOf (b : List Nat) : Nat := byteAt b 8 + twoBits (byteAt b 11) 0 * 256

def hspwOf (b : List Nat) : Nat := byteAt b 9 + twoBits (byteAt b 11) 1 * 256

def vfpOf (b : List Nat) : Nat := hiNib (byteAt b 10) + twoBits (byteAt b 11) 2 * 256

def vspwOf (b : List Nat) : Nat := loNib (byteAt b 10) + twoBits (byteAt b 11) 3 * 256

/-- Modelled from the spec (claim C8's words): the largest value an operand
"reassembled as low 8 bits plus the high 2 bits shifted left by 8" can
take. -/
def specPorchOperandMax : Nat := 255 + 3 * 256

theorem hiNib_lt (x : Nat) : hiNib x < 16 := Nat.mod_lt _ (by norm_num)

theorem twoBits_lt (x k : Nat) : twoBits x k < 4 := by
  unfold twoBits
  split <;> first | exact Nat.mod_lt _ (by norm_num)

theorem hblankOf_lt (b : List Nat) : hblankOf b < 4096 := by
  have h1 := byteAt_lt b 3
  have h2 := loNib_lt (byteAt b 4)
  unfold hblankOf
  omega

theorem vblankOf_lt (b : List Nat) : vblankOf b < 4096 := by
  have h1 := byteAt_lt b 6
  have h2 := loNib_lt (byteAt b 7)
  unfold vblankOf
  omega

theorem hfpOf_lt (b : List Nat) : hfpOf b < 1024 := by
  have h1 := byteAt_lt b 8
  have h2 := twoBits_lt (byteAt b 11) 0
  unfold hfpOf
  omega

theorem hspwOf_lt (b : List Nat) : hspwOf b < 1024 := by
  have h1 := byteAt_lt b 9
  have h2 := twoBits_lt (byteAt b 11) 1
  unfold hspwOf
  omega

theorem vfpOf_lt (b : List Nat) : vfpOf b < 1024 := by
  have h1 := hiNib_lt (byteAt b 10)
  have h2 := twoBits_lt (byteAt b 11) 2
  unfold vfpOf
  omega

theorem vspwOf_lt (b : List Nat) : vspwOf b < 1024 := by
  have h1 := loNib_lt (byteAt b 10)
  have h2 := twoBits_lt (byteAt b 11) 3
  unfold vspwOf
  omega

/-- The chained Go `uint64` subtraction `a - bb - c`, when the true
difference is negative but small, wraps to `2^64` plus the difference. -/
theorem usub64_chain_wrap (a bb c : Nat) (ha : a < 4096) (hb : bb < 1024) (hc : c < 1024)
    (h : a < bb + c) : usub64 (usub64 a bb) c = W64 + a - bb - c := by
  unfold usub64 W64
  omega

/-- The same chained subtraction as an `Int` remainder: the emitted value
is the mathematical difference modulo `2^64`. -/
theorem usub64_chain_int (a bb c : Nat) :
    (usub64 (usub64 a bb) c : ℤ) = ((a : ℤ) - bb - c) % (2 ^ 64) := by
  unfold usub64 W64
  push_cast
  omega

/-! ## Concrete fixtures used by the claim theorems -/

/-- A 16-byte standard-timing window: slot 1 holds `(0x61, 0x3F)`, the
seven other slots hold the unused marker `(0x01, 0x01)`. -/
def stWinC2 : List Nat := [0x61, 0x3F, 1, 1, 1, 1, 1, 1, 1, 1, 1, 1, 1, 1, 1, 1]

/-- An all-zero detailed-timing slot. -/
def dtdZero : List Nat := List.replicate 18 0

/-- A detailed-timing slot whose horizontal-blanking high nibble is 0xF
(byte 4 = 0x0F), so the reassembled blanking is 3840. -/
def dtdBlankC8 : List Nat := [0, 0, 0, 0, 0x0F, 0, 0, 0, 0, 0, 0, 0, 0, 0, 0, 0, 0, 0]

/-- A detailed-timing slot with zero blanking but a front porch of 1 in
both directions (byte 8 = 1, byte 10 = 0x10), so both back-porch
subtractions underflow. -/
def dtdWrapC10 : List Nat := [0, 0, 0, 0, 0, 0, 0, 0, 1, 0, 0x10, 0, 0, 0, 0, 0, 0, 0]

/-- A well-formed CEA-861 extension window: tag 2, offset 4, both embedded
descriptor slots in the detailed-timing variant (first slot byte nonzero). -/
def ceaWin : List Nat :=
  [2, 0, 4, 0, 1] ++ List.replicate 17 0 ++ [1] ++ List.replicate 105 0

/-- A CEA-861 extension window with offset 0: the padding length
`(offset-4)*8` is negative. -/
def ceaBadOffset : List Nat := [2] ++ List.replicate 127 0

/-- An extension window whose tag 0x55 matches no registered sub-decoder. -/
def unknownWin : List Nat := List.replicate 128 0x55

/-- A DisplayID extension window whose data-block list starts with a ZERO
tag (byte 5 = 0), followed by a 2-byte payload; `bytes_of_data` = 5, so the
list region is exactly that one block. -/
def didWinFirstZero : List Nat :=
  [0x70, 0x12, 5, 0, 0, 0, 0, 2, 0xAA, 0xBB] ++ List.replicate 118 0

/-- A DisplayID extension window with one nonzero-tag block (tag 0x0a,
2-byte payload) followed by a zero tag in the middle of the list region
(`bytes_of_data` = 10, byte 10 = 0). -/
def didWinLaterZero : List Nat :=
  [0x70, 0x12, 10, 0, 0, 0x0a, 0, 2, 0xAA, 0xBB] ++ List.replicate 118 0

/-! ## Claim theorems -/

/-- C1: for every 128-byte record the checksum byte at offset 127
validates exactly when it equals `(0 - sum of the first 127 bytes) mod
256`; mutating any single one of the first 127 bytes of a validating
record makes validation fail; and the result is recorded on the checksum
field itself while the extension windows after the base record are decoded
regardless (in particular unchanged if the checksum byte is corrupted). -/
theorem C1_checksum_spec :
    (∀ record : List Nat,
      checksumValid record = true ↔
        (byteAt record 127 : ℤ) = (0 - ((slice record 0 127).sum : ℤ)) % 256)
    ∧ (∀ (record : List Nat) (i b' : Nat),
        record.length = 128 → (∀ x ∈ record, x < 256) → i < 127 → b' < 256 →
        b' ≠ record.getD i 0 → checksumValid record = true →
        checksumValid (record.set i b') = false)
    ∧ (∀ buf : List Nat,
        (decodeEDIDTail buf).checksum =
          { name := "checksum", firstBit := 1016, nBits := 8,
            value := byteAt buf 127, valid := checksumValid buf }
        ∧ (decodeEDIDTail buf).extensions.length = byteAt buf 126
        ∧ ∀ b' : Nat,
            (decodeEDIDTail (buf.set 127 b')).extensions = (decodeEDIDTail buf).extensions) := by
  refine ⟨checksumValid_iff_int, checksumValid_set_of_ne, fun buf => ⟨rfl, by simp [decodeEDIDTail], fun b' => ?_⟩⟩
  have hbyte : byteAt (buf.set 127 b') 126 = byteAt buf 126 := by
    simp [byteAt, List.getD, List.get?_eq_getElem?, List.getElem?_set_ne (show 127 ≠ 126 by omega)]
  have hslice : ∀ i : Nat, slice (buf.set 127 b') (128 * (i + 1)) 128 = slice buf (128 * (i + 1)) 128 := by
    intro i
    unfold slice
    rw [List.drop_set]
    have : 127 < 128 * (i + 1) := by omega
    simp [this]
  simp only [decodeEDIDTail, hbyte]
  exact List.map_congr_left fun i _ => by rw [hslice i]

/-- C2 (counterexample): evaluation of the standard-timing decoder at the
failing input.  The claim says slot 1, holding `(0x61, 0x3F)`, yields a
timing with horizontal symbol `(0x61+31)*8` (which is 1024, not the
claim's 1176) while the `(0x01,0x01)` slots are skipped; the code instead
skips slot 1 and emits a single timing at slot 4's bit address whose
values come from nibble-masked mirrored bytes, with horizontal symbol
368. -/
theorem C2_standard_timing_eval :
    decodeStandardTimings stWinC2 =
      [{ firstBit := 352, horizRaw := 15, horizSym := 368, aspectRaw := 0,
         aspectSym := "16:10", refreshRaw := 1, refreshSym := 61 }]
    ∧ decodeStandardTimingsSpec stWinC2 =
      [{ firstBit := 304, horizRaw := 0x61, horizSym := 1024, aspectRaw := 0,
         aspectSym := "16:10", refreshRaw := 63, refreshSym := 123 }]
    ∧ decodeStandardTimings stWinC2 ≠ decodeStandardTimingsSpec stWinC2 := by
  refine ⟨by decide, by decide, by decide⟩

attribute [local semireducible] Rat.mul Rat.add Rat.sub Rat.inv in
/-- C3 (counterexample): screen-size bytes 61 and 90 do NOT resolve to
"16:9"; the first denominator within tolerance is 16 (61/90 is within 1/100
of 11/16), so the code renders "11:16". -/
theorem C3_aspect_counterexample :
    aspectRatioField 61 90 = some "11:16" ∧ aspectRatioField 61 90 ≠ some "16:9" := by
  constructor
  · decide
  · decide

attribute [local semireducible] Rat.mul Rat.add Rat.sub Rat.inv in
/-- C3 (amended): "undefined" exactly when both screen-size bytes are
zero; otherwise the continued-fraction search over denominators 1..20 with
tolerance 1/100 returns the first match, gcd-reduces it, and applies the
four edge-case substitutions AFTER the reduction (16:10 stays 16:10, while
a pre-reduction lookup would have produced 8:5); bytes (61, 90) resolve to
"11:16". -/
theorem C3_aspect_ratio :
    aspectRatioField 0 0 = some "undefined"
    ∧ (∀ h v : Nat, aspectRatioField h v = some "undefined" → h = 0 ∧ v = 0)
    ∧ (∀ h v : Nat, h ≠ 0 → v ≠ 0 →
        aspectRatioField h v = aspectRatio ((h : ℚ) / (v : ℚ)))
    ∧ (∀ (a : ℚ) (s : String), aspectRatio a = some s →
        ∃ n, 1 ≤ n ∧ n ≤ 20 ∧ cfAccept a n ∧
          (∀ k, 1 ≤ k → k < n → ¬ cfAccept a k) ∧
          s = aspectRatioDenominator (roundedNum a n) n)
    ∧ (∀ w h : Nat, aspectRatioDenominator w h =
        match aspectRatioEdgeCase (ratioString (w / greatest_common_divisor w h)
            (h / greatest_common_divisor w h)) with
        | some edge => edge
        | none => ratioString (w / greatest_common_divisor w h)
            (h / greatest_common_divisor w h))
    ∧ aspectRatioDenominator 16 10 = "16:10"
    ∧ aspectRatioDenominatorPre 16 10 = "8:5"
    ∧ aspectRatioField 61 90 = some "11:16" := by
  refine ⟨rfl, ?_, ?_, ?_, fun w h => rfl, by decide, by decide, by decide⟩
  · intro h v hu
    by_contra hcon
    have hne : ¬(h = 0 ∧ v = 0) := fun hz => hcon ⟨hz.1, hz.2⟩
    unfold aspectRatioField at hu
    rw [if_neg hne] at hu
    split_ifs at hu <;> exact aspectRatio_ne_undefined _ hu
  · intro h v hh hv
    unfold aspectRatioField
    rw [if_neg (by tauto), if_neg hh, if_neg hv]
  · intro a s hs
    obtain ⟨n, h1, h2, h3, h4, h5⟩ := aspectRatioFrom_some a 20 1 s hs
    exact ⟨n, h1, by omega, h3, h4, h5⟩

/-- C4 (counterexample): inside one detailed timing descriptor the 7-bit
stereo_viewing_support field (bits [137,144)) and the 4-bit sync fields
(bits [139,143)) are sibling fields whose ranges overlap without being the
same combined range, so the claimed strict no-overlap invariant fails. -/
theorem C4_overlap_counterexample :
    ¬ (rangesOf (DetailedTimingDescriptor dtdZero)).Pairwise claimSiblingRel
    ∧ (rangesOf (DetailedTimingDescriptor dtdZero))[16]? = some (137, 7)
    ∧ (rangesOf (DetailedTimingDescriptor dtdZero))[17]? = some (139, 4)
    ∧ ¬ rangesDisjoint (137, 7) (139, 4)
    ∧ ((137, 7) : Nat × Nat) ≠ (139, 4) := by
  refine ⟨by decide, by decide, by decide, by decide, by decide⟩

/-- C4 (amended): sibling field ranges are emitted with non-decreasing
start bits and are pairwise disjoint, equal, or nested (a later sub-field
may sit inside an earlier field's range, as the sync sub-fields sit inside
the stereo byte); in the established-timings array the strict claim even
holds as stated, because every per-set-bit timing field of one flag byte
shares that byte's exact range, and likewise for the chromaticity
coordinates, which all share the combined reassembled range [200, 280). -/
theorem C4_sibling_ranges :
    (∀ b : List Nat, (rangesOf (DetailedTimingDescriptor b)).Pairwise amendedSiblingRel)
    ∧ (∀ buf : List Nat, (rangesOf (decodeEstablishedTimings buf)).Pairwise claimSiblingRel)
    ∧ (∀ buf : List Nat,
        ((decodeChromaticityCoordinates buf).map FltField.range).Pairwise claimSiblingRel)
    ∧ (∀ flags fb : Nat, ∀ r ∈ rangesOf (mapTimings flags fb), r = (fb, 8)) := by
  refine ⟨?_, ?_, ?_, rangesOf_mapTimings⟩
  · intro b
    rw [rangesOf_dtd]
    decide
  · intro buf
    exact pairwise_established buf (by decide) (by decide) (by decide) (by decide)
      (by decide) (by decide)
  · intro buf
    have h : (decodeChromaticityCoordinates buf).map FltField.range =
        List.replicate 8 (200, 80) := rfl
    rw [h]
    decide

/-- C5 (counterexample): an extension window whose tag (0x55) matches no
registered sub-decoder is captured as a single opaque unknown_extension
field covering the whole 128-byte window — and NO checksum field is
emitted for it, contrary to the claim. -/
theorem C5_unknown_no_checksum :
    decodeExtension unknownWin = .unknown [unknownExtensionField]
    ∧ ((decodeExtension unknownWin).fields.map Field.name) = ["unknown_extension"]
    ∧ (((decodeExtension unknownWin).fields.map Field.name).contains "checksum") = false := by
  refine ⟨by decide, by decide, by decide⟩

/-- C5 (amended): for every window whose leading tag is neither 0x02 (CEA)
nor 0x70 (DisplayID), decode falls back to one opaque unknown_extension
raw field spanning the full 128-byte window (bits [0,1024)), does not
fail, and the declared number of extension windows is always decoded. -/
theorem C5_unknown_extension :
    (∀ w : List Nat, byteAt w 0 ≠ 0x02 → byteAt w 0 ≠ 0x70 →
      decodeExtension w = .unknown [unknownExtensionField])
    ∧ unknownExtensionField.name = "unknown_extension"
    ∧ unknownExtensionField.firstBit = 0 ∧ unknownExtensionField.nBits = 1024
    ∧ (∀ buf : List Nat, (decodeEDIDTail buf).extensions.length = byteAt buf 126) := by
  refine ⟨?_, rfl, rfl, rfl, fun buf => by simp [decodeEDIDTail]⟩
  intro w h2 h70
  have hc : decodeCEAExtension w = .error () := by
    unfold decodeCEAExtension
    rw [if_pos h2]
  have hd : decodeDisplayIDExtension w = .error () := by
    unfold decodeDisplayIDExtension
    rw [if_pos h70]
  unfold decodeExtension
  rw [hc, hd]

/-- The mapper chain used by the C6 counterexample: a description mapper
and a raw-value-shifting mapper succeed, then a lookup mapper with an
empty domain fails, and a symbol mapper follows the failure. -/
def failChainC6 : List UintMapperFn :=
  [descUintMapper "MHz", UintActualAdd 1, lookupUintMapper (fun _ => none), addUintMapper 60]

/-- C6 (counterexample): when a mapper fails mid-chain the emitted scalar
keeps everything the EARLIER successful mappers did — here the raw value
was shifted from 5 to 6 and a description annotation is present — so the
field is neither "left intact" nor "unannotated". -/
theorem C6_pipeline_counterexample :
    FieldValueUintAddr "pixel_clock" 5 0 16 failChainC6 =
      ("pixel_clock", 0, 16, { actual := 6, sym := none, description := some "MHz" })
    ∧ ({ actual := 6, sym := none, description := some "MHz" } : UintScalar) ≠ { actual := 5 } := by
  refine ⟨rfl, by decide⟩

/-- C6 (amended): a failing mapper never aborts the decode — the field is
always emitted over its name and range; at the first failing mapper the
chain stops with exactly the scalar that mapper returned (so annotations
and raw-value changes from earlier successful mappers persist), and the
mappers after the failure have no influence on the result. -/
theorem C6_mapper_failure :
    (∀ (name : String) (a fb nb : Nat) (sms : List UintMapperFn),
      FieldValueUintAddr name a fb nb sms =
        (name, fb, nb, applyUintMappers { actual := a } sms))
    ∧ (∀ (s : UintScalar) (m : UintMapperFn) (ms : List UintMapperFn),
        (m s).2 = true → applyUintMappers s (m :: ms) = (m s).1)
    ∧ (∀ (s : UintScalar) (m : UintMapperFn) (ms ms' : List UintMapperFn),
        (m s).2 = true →
          applyUintMappers s (m :: ms) = applyUintMappers s (m :: ms'))
    ∧ (∀ (s : UintScalar) (m : UintMapperFn) (ms : List UintMapperFn),
        (m s).2 = false → applyUintMappers s (m :: ms) = applyUintMappers (m s).1 ms) := by
  refine ⟨fun _ _ _ _ _ => rfl, ?_, ?_, ?_⟩
  · intro s m ms h
    simp [applyUintMappers, h]
  · intro s m ms ms' h
    simp [applyUintMappers, h]
  · intro s m ms h
    simp [applyUintMappers, h]

/-- C7: in the DisplayID data-block list, a zero tag peeked at the very
first block position is decoded as an ordinary block (the loop hands it to
the block decoder), while a zero tag peeked at any later position
terminates the list with that tag unconsumed; every decoded block advances
the position by at least 3 bytes, so a position after one or more blocks
can never equal the list start again.  The two fixtures exercise both
behaviours concretely. -/
theorem C7_zero_tag :
    (∀ (w : List Nat) (limit dataStart fuel pos : Nat),
        pos < limit → pos + 8 ≤ 1016 → byteAt w (pos / 8) = 0 → pos ≠ dataStart →
        dataBlocksLoop w limit dataStart (fuel + 1) pos = .ok ([], pos))
    ∧ (∀ (w : List Nat) (limit dataStart fuel : Nat),
        dataStart < limit → dataStart + 8 ≤ 1016 → byteAt w (dataStart / 8) = 0 →
        dataBlocksLoop w limit dataStart (fuel + 1) dataStart =
          (match decodeDataBlockE w dataStart with
           | .error e => .error e
           | .ok (blk, pos1) =>
             match dataBlocksLoop w limit dataStart fuel pos1 with
             | .error e => .error e
             | .ok (rest, posF) => .ok (blk :: rest, posF)))
    ∧ (∀ (w : List Nat) (pos : Nat) (blk : DataBlock) (pos' : Nat),
        decodeDataBlockE w pos = .ok (blk, pos') → pos + 24 ≤ pos')
    ∧ dataBlocksLoop didWinLaterZero 120 40 120 40 =
        .ok ([{ tag := 0x0a, firstBit := 40, nBits := 40 }], 80)
    ∧ dataBlocksLoop didWinFirstZero 80 40 80 40 =
        .ok ([{ tag := 0, firstBit := 40, nBits := 40 }], 80) := by
  refine ⟨?_, ?_, ?_, by rfl, by rfl⟩
  · intro w limit dataStart fuel pos h1 h2 h3 h4
    simp [dataBlocksLoop, not_le.mpr h1, Nat.not_lt.mpr h2, h3, h4]
  · intro w limit dataStart fuel h1 h2 h3
    simp [dataBlocksLoop, not_le.mpr h1, Nat.not_lt.mpr h2, h3]
  · intro w pos blk pos' h
    simp only [decodeDataBlockE] at h
    split_ifs at h
    all_goals first
      | exact Except.noConfusion h
      | (simp only [Except.ok.injEq, Prod.mk.injEq] at h; omega)

/-- C8 (counterexample): the horizontal-blanking operand of the back-porch
subtraction is reassembled from a low byte plus a high NIBBLE (4 bits): on
a slot with byte 4 = 0x0F the emitted horizontal_blanking is 3840, which
no "low 8 bits plus high 2 bits shifted left by 8" reassembly can reach
(its maximum is 1023). -/
theorem C8_reassembly_counterexample :
    ((DetailedTimingDescriptor dtdBlankC8)[2]?).map Field.value = some 3840
    ∧ ((DetailedTimingDescriptor dtdBlankC8)[2]?).map Field.name =
        some "horizontal_blanking"
    ∧ specPorchOperandMax < 3840 := by
  refine ⟨by decide, rfl, by decide⟩

/-- C8 (amended): both back-porch fields are derived, not read: for every
input slot, horizontal_back_porch equals horizontal_blanking minus
horizontal_front_porch minus horizontal_sync_pulse_width (as wrapping
uint64 subtraction) and likewise vertically, where the horizontal porch
and sync operands are low 8 bits plus high 2 bits shifted left by 8, the
vertical ones are low 4 bits plus high 2 bits shifted left by 8, and the
blanking operands are low 8 bits plus high 4 bits shifted left by 8. -/
theorem C8_back_porch_derived :
    (∀ b : List Nat,
      (DetailedTimingDescriptor b)[2]? =
        some { name := "horizontal_blanking", firstBit := 16, nBits := 24,
               value := hblankOf b }
      ∧ (DetailedTimingDescriptor b)[5]? =
        some { name := "horizontal_front_porch", firstBit := 64, nBits := 32,
               value := hfpOf b }
      ∧ (DetailedTimingDescriptor b)[6]? =
        some { name := "horizontal_sync_pulse_width", firstBit := 64, nBits := 32,
               value := hspwOf b }
      ∧ (DetailedTimingDescriptor b)[7]? =
        some { name := "horizontal_back_porch", firstBit := 64, nBits := 32,
               value := usub64 (usub64 (hblankOf b) (hfpOf b)) (hspwOf b) }
      ∧ (DetailedTimingDescriptor b)[4]? =
        some { name := "vertical_blanking", firstBit := 40, nBits := 24,
               value := vblankOf b }
      ∧ (DetailedTimingDescriptor b)[8]? =
        some { name := "vertical_front_porch", firstBit := 64, nBits := 32,
               value := vfpOf b }
      ∧ (DetailedTimingDescriptor b)[9]? =
        some { name := "vertical_sync_pulse_width", firstBit := 64, nBits := 32,
               value := vspwOf b }
      ∧ (DetailedTimingDescriptor b)[10]? =
        some { name := "vertical_back_porch", firstBit := 64, nBits := 32,
               value := usub64 (usub64 (vblankOf b) (vfpOf b)) (vspwOf b) })
    ∧ (∀ b : List Nat,
      hblankOf b = byteAt b 3 + loNib (byteAt b 4) * 256
      ∧ hfpOf b = byteAt b 8 + twoBits (byteAt b 11) 0 * 256
      ∧ hspwOf b = byteAt b 9 + twoBits (byteAt b 11) 1 * 256
      ∧ vblankOf b = byteAt b 6 + loNib (byteAt b 7) * 256
      ∧ vfpOf b = hiNib (byteAt b 10) + twoBits (byteAt b 11) 2 * 256
      ∧ vspwOf b = loNib (byteAt b 10) + twoBits (byteAt b 11) 3 * 256) := by
  exact ⟨fun b => ⟨rfl, rfl, rfl, rfl, rfl, rfl, rfl, rfl⟩,
    fun b => ⟨rfl, rfl, rfl, rfl, rfl, rfl⟩⟩

/-- C10: the back-porch subtractions are unguarded uint64 arithmetic: when
the reassembled blanking is smaller than front porch plus sync width, the
emitted value is the mathematical difference wrapped modulo 2^64 (equal to
2^64 plus the negative difference), not a negative number or an error. -/
theorem C10_back_porch_wrap (b : List Nat)
    (hh : hblankOf b < hfpOf b + hspwOf b)
    (hv : vblankOf b < vfpOf b + vspwOf b) :
    ((DetailedTimingDescriptor b)[7]?).map Field.value =
      some (W64 + hblankOf b - hfpOf b - hspwOf b)
    ∧ ((DetailedTimingDescriptor b)[10]?).map Field.value =
      some (W64 + vblankOf b - vfpOf b - vspwOf b)
    ∧ ((W64 + hblankOf b - hfpOf b - hspwOf b : Nat) : ℤ) =
        ((hblankOf b : ℤ) - hfpOf b - hspwOf b) % 2 ^ 64
    ∧ ((W64 + vblankOf b - vfpOf b - vspwOf b : Nat) : ℤ) =
        ((vblankOf b : ℤ) - vfpOf b - vspwOf b) % 2 ^ 64 := by
  have e7 : ((DetailedTimingDescriptor b)[7]?).map Field.value =
      some (usub64 (usub64 (hblankOf b) (hfpOf b)) (hspwOf b)) := rfl
  have e10 : ((DetailedTimingDescriptor b)[10]?).map Field.value =
      some (usub64 (usub64 (vblankOf b) (vfpOf b)) (vspwOf b)) := rfl
  have wh := usub64_chain_wrap (hblankOf b) (hfpOf b) (hspwOf b) (hblankOf_lt b)
    (hfpOf_lt b) (hspwOf_lt b) hh
  have wv := usub64_chain_wrap (vblankOf b) (vfpOf b) (vspwOf b) (vblankOf_lt b)
    (vfpOf_lt b) (vspwOf_lt b) hv
  refine ⟨by rw [e7, wh], by rw [e10, wv], ?_, ?_⟩
  · rw [← wh, usub64_chain_int]
  · rw [← wv, usub64_chain_int]

/-- C10 (witness): a slot with zero blanking and a front porch of 1 in both
directions wraps both back porches to 2^64 - 1. -/
theorem C10_back_porch_wrap_witness :
    (hblankOf dtdWrapC10 < hfpOf dtdWrapC10 + hspwOf dtdWrapC10)
    ∧ (vblankOf dtdWrapC10 < vfpOf dtdWrapC10 + vspwOf dtdWrapC10)
    ∧ (((DetailedTimingDescriptor dtdWrapC10)[7]?).map Field.value =
        some (W64 + hblankOf dtdWrapC10 - hfpOf dtdWrapC10 - hspwOf dtdWrapC10)
      ∧ ((DetailedTimingDescriptor dtdWrapC10)[10]?).map Field.value =
        some (W64 + vblankOf dtdWrapC10 - vfpOf dtdWrapC10 - vspwOf dtdWrapC10)
      ∧ ((W64 + hblankOf dtdWrapC10 - hfpOf dtdWrapC10 - hspwOf dtdWrapC10 : Nat) : ℤ) =
          ((hblankOf dtdWrapC10 : ℤ) - hfpOf dtdWrapC10 - hspwOf dtdWrapC10) % 2 ^ 64
      ∧ ((W64 + vblankOf dtdWrapC10 - vfpOf dtdWrapC10 - vspwOf dtdWrapC10 : Nat) : ℤ) =
          ((vblankOf dtdWrapC10 : ℤ) - vfpOf dtdWrapC10 - vspwOf dtdWrapC10) % 2 ^ 64) :=
  ⟨by decide, by decide, C10_back_porch_wrap dtdWrapC10 (by decide) (by decide)⟩

/-- The field list a successful CEA-861 extension decode emits, spelled
out: 4 header bytes, `(offset-4)` bytes of padding, two 18-byte descriptor
slots, `(123-32-offset)` bytes of opaque data, and the checksum byte at
bit 1016. -/
def ceaLayout (w : List Nat) (f1 f2 : List Field) : List Field :=
  [ { name := "tag", firstBit := 0, nBits := 8, value := byteAt w 0 },
    { name := "revision", firstBit := 8, nBits := 8, value := byteAt w 1 },
    { name := "offset", firstBit := 16, nBits := 8, value := byteAt w 2 },
    { name := "reserved", firstBit := 24, nBits := 8, value := byteAt w 3 },
    { name := "padding", firstBit := 32, nBits := (byteAt w 2 - 4) * 8, value := 0 } ] ++
  (f1.map (shiftField (byteAt w 2 * 8))) ++
  (f2.map (shiftField ((byteAt w 2 + 18) * 8))) ++
  [ { name := "data", firstBit := (byteAt w 2 + 36) * 8,
      nBits := (91 - byteAt w 2) * 8, value := 0 },
    { name := "checksum", firstBit := 1016, nBits := 8, value := byteAt w 127,
      valid := checksumValid w } ]

/-- C9 (amended): for every offset byte between 4 and 91 (inclusive) whose
embedded descriptor slots decode without a fatal assert, the CEA-861
extension decode succeeds, consumes exactly 128 bytes (1024 bits), and
lays the window out as header, padding, two descriptors, opaque data and
trailing checksum; offsets outside 4..91 make a computed length negative
or a read cross the 128-byte frame, so the decode errors out instead. -/
theorem C9_cea_offset (w : List Nat) (f1 f2 : List Field)
    (htag : byteAt w 0 = 0x02) (h4 : 4 ≤ byteAt w 2) (h91 : byteAt w 2 ≤ 91)
    (hd1 : DetailedDescriptorE (slice w (byteAt w 2) 18) = .ok f1)
    (hd2 : DetailedDescriptorE (slice w (byteAt w 2 + 18) 18) = .ok f2) :
    decodeCEAExtension w = .ok (ceaLayout w f1 f2, 1024) := by
  unfold decodeCEAExtension ceaLayout
  simp only [hd1, hd2]
  rw [if_neg (by simp [htag]), if_neg (by omega), if_neg (by omega), if_neg (by omega),
    if_neg (by omega), if_neg (by omega)]

/-- C9 (witness): a concrete window with offset 4 and two detailed-timing
descriptor slots decodes fully. -/
theorem C9_cea_offset_witness :
    byteAt ceaWin 0 = 0x02 ∧ 4 ≤ byteAt ceaWin 2 ∧ byteAt ceaWin 2 ≤ 91
    ∧ decodeCEAExtension ceaWin =
        .ok (ceaLayout ceaWin (DetailedTimingDescriptor (slice ceaWin 4 18))
          (DetailedTimingDescriptor (slice ceaWin 22 18)), 1024) :=
  ⟨by decide, by decide, by decide,
    C9_cea_offset ceaWin _ _ (by decide) (by decide) (by decide) rfl rfl⟩

/-- C9 (counterexample): with offset byte 0 the padding length
`(offset - 4) * 8` is negative and the CEA decode fails — it does not
consume a 128-byte layout of the claimed shape, refuting "for every value
of the offset byte". -/
theorem C9_bad_offset_counterexample :
    decodeCEAExtension ceaBadOffset = .error ()
    ∧ byteAt ceaBadOffset 0 = 0x02 ∧ byteAt ceaBadOffset 2 = 0 := by
  refine ⟨by rfl, by decide, by decide⟩

end EDID
